import Mathlib

/-!
Verification of the ZeroWeb scrape-and-index pipeline.

Shallow embedding of the pipeline code:
  * `ZeroSkan`   : the PostgreSQL-backed content store (ZeroSkan.py) —
    `insert_urls_into_db` (per-URL upsert) and `get_unscraped_rows`
    (batch claiming with FOR UPDATE SKIP LOCKED).
  * `ZeroScraper`: snippet extraction (ZeroScraper.py `scrape_page`).
  * `ZeroScan`   : the breadth-first domain crawler (ZeroScan.py
    `crawl_domain`, `_extract_links`, `_is_valid_url`).
  * `ZeroIndex`  : the FAISS vector index manager (ZeroIndex.py
    `process_queue`, `search`, `remove_url`, `rebuild_index`,
    `_load_index`).

Python dicts are embedded as association lists, the FAISS flat
inner-product index as a list of abstract embedding vectors with a
rational score oracle, and machine floats as rationals.
-/

/-! ### Association-list helpers (embedding of Python dict operations) -/

/-- Lookup in an association list: the value of the first pair whose key
matches.  Embeds Python `d.get(k)` / `k in d`. -/
def alookup {α β : Type} [DecidableEq α] : List (α × β) → α → Option β
  | [], _ => none
  | p :: ps, k => if p.1 = k then some p.2 else alookup ps k

theorem alookup_append {α β : Type} [DecidableEq α] (l₁ l₂ : List (α × β)) (k : α) :
    alookup (l₁ ++ l₂) k =
      match alookup l₁ k with
      | some v => some v
      | none => alookup l₂ k := by
  induction l₁ with
  | nil => rfl
  | cons p ps ih =>
    by_cases h : p.1 = k <;> simp [alookup, h, ih]

theorem alookup_isSome_iff {α β : Type} [DecidableEq α] (l : List (α × β)) (k : α) :
    (alookup l k).isSome = true ↔ k ∈ l.map Prod.fst := by
  induction l with
  | nil => simp [alookup]
  | cons p ps ih =>
    simp only [alookup, List.map_cons, List.mem_cons]
    by_cases h : p.1 = k
    · simp [h]
    · rw [if_neg h, ih]
      constructor
      · exact fun hm => Or.inr hm
      · rintro (hc | hm)
        · exact absurd hc.symm h
        · exact hm

theorem alookup_eq_none_iff {α β : Type} [DecidableEq α] (l : List (α × β)) (k : α) :
    alookup l k = none ↔ k ∉ l.map Prod.fst := by
  rw [← alookup_isSome_iff]
  cases alookup l k <;> simp

/-- Deduplication, embedding Python `set(...)` construction (the set's
iteration order is unspecified in Python; this model keeps the last
occurrence). -/
def dedup {α : Type} [DecidableEq α] : List α → List α
  | [] => []
  | a :: as => if a ∈ as then dedup as else a :: dedup as

theorem mem_of_mem_dedup {α : Type} [DecidableEq α] {l : List α} {x : α}
    (h : x ∈ dedup l) : x ∈ l := by
  induction l with
  | nil => simp [dedup] at h
  | cons a as ih =>
    by_cases ha : a ∈ as
    · simp only [dedup, if_pos ha] at h
      exact List.mem_cons_of_mem _ (ih h)
    · simp only [dedup, if_neg ha, List.mem_cons] at h
      rcases h with h | h
      · exact h ▸ List.mem_cons_self _ _
      · exact List.mem_cons_of_mem _ (ih h)

/-- Whether `pat` is a leading segment of `l`. -/
def listLeads {α : Type} [DecidableEq α] : List α → List α → Bool
  | [], _ => true
  | _ :: _, [] => false
  | a :: as, b :: bs => a = b && listLeads as bs

/-- Whether `pat` occurs as a contiguous segment of `l`. -/
def listHasSeg {α : Type} [DecidableEq α] (pat : List α) : List α → Bool
  | [] => pat.isEmpty
  | b :: bs => listLeads pat (b :: bs) || listHasSeg pat bs

/-- Substring test, embedding the Python `pat in s` operator on strings. -/
def strContains (s pat : String) : Bool :=
  listHasSeg pat.toList s.toList

/-- Embedding of Python `s.endswith(pat)`. -/
def strEndsWith (s pat : String) : Bool :=
  listLeads pat.toList.reverse s.toList.reverse

/-- Embedding of Python `s.startswith(pat)`. -/
def strStartsWith (s pat : String) : Bool :=
  listLeads pat.toList s.toList

namespace ZeroSkan

/-!
### ZeroSkan.py — the content store

`initDB` creates table `scraped_data (id SERIAL PRIMARY KEY, url TEXT
UNIQUE NOT NULL, snippet TEXT, embedding BYTEA, crawl_delay REAL, full_text
TEXT)`.  A row is embedded with the columns the claims touch; the table is
a list of rows, and the UNIQUE constraint is the `urlsNodup` invariant.
-/

structure Row where
  id : Nat
  url : String
  snippet : Option String
  crawl_delay : ℚ
  deriving DecidableEq

/-- The UNIQUE NOT NULL constraint on `url` from `initDB`. -/
def urlsNodup (t : List Row) : Prop :=
  (t.map Row.url).Nodup

instance (t : List Row) : Decidable (urlsNodup t) := by
  unfold urlsNodup; infer_instance

/-- Fresh SERIAL id: one more than the largest id present. -/
def freshId (t : List Row) : Nat :=
  (t.map Row.id).foldr max 0 + 1

/-- One `INSERT INTO scraped_data (url, crawl_delay) VALUES (%s, %s)
ON CONFLICT (url) DO NOTHING` from `insert_urls_into_db`: under the UNIQUE
constraint its relational effect is insert-if-absent. -/
def insertUrl (t : List Row) (url : String) (delay : ℚ) : List Row :=
  if t.any (fun r => r.url = url) then t
  else t ++ [⟨freshId t, url, none, delay⟩]

/-!
The claim-batch mechanism of `get_unscraped_rows`: the store carries the
set of row ids currently row-locked by open transactions.  The function
runs `SELECT id, url, crawl_delay FROM scraped_data WHERE snippet IS NULL
ORDER BY id LIMIT batch_size FOR UPDATE SKIP LOCKED`, fetches the rows,
and then immediately `conn.commit()`s, which releases the row locks.  No
column is updated: the rows stay `snippet IS NULL` and unlocked.
-/

structure Store where
  rows : List Row
  locked : List Nat
  deriving DecidableEq

def rowIdLe (a b : Row) : Prop := a.id ≤ b.id

instance : DecidableRel rowIdLe := fun a b => inferInstanceAs (Decidable (a.id ≤ b.id))

instance : IsTotal Row rowIdLe := ⟨fun a b => Nat.le_total a.id b.id⟩

instance : IsTrans Row rowIdLe := ⟨fun _ _ _ h h' => Nat.le_trans h h'⟩

/-- The SELECT ... FOR UPDATE SKIP LOCKED phase: unscraped, unlocked rows
in id order, limited to `batchSize`; the returned rows become locked. -/
def claimSelect (st : Store) (batchSize : Nat) : List Row × Store :=
  let picked :=
    ((List.insertionSort rowIdLe
        (st.rows.filter (fun r => r.snippet = none ∧ r.id ∉ st.locked))).take
      batchSize)
  (picked, { st with locked := st.locked ++ picked.map Row.id })

/-- The `conn.commit()` right after `fetchall()`: releases this caller's
row locks without writing anything. -/
def commitClaim (st : Store) (ids : List Nat) : Store :=
  { st with locked := st.locked.filter (fun i => i ∉ ids) }

/-- `get_unscraped_rows(batch_size)` run to completion by one worker:
select-and-lock, fetch, then commit (which releases the locks). -/
def claimBatch (st : Store) (batchSize : Nat) : List Row × Store :=
  let sel := claimSelect st batchSize
  (sel.1, commitClaim sel.2 (sel.1.map Row.id))

end ZeroSkan

theorem ZeroSkan.filter_url_length_one {t : List ZeroSkan.Row} (h : ZeroSkan.urlsNodup t)
    {u : String} (hm : u ∈ t.map ZeroSkan.Row.url) :
    (t.filter (fun r => r.url = u)).length = 1 := by
  induction t with
  | nil => simp at hm
  | cons r rs ih =>
    have h' : (rs.map ZeroSkan.Row.url).Nodup ∧ r.url ∉ rs.map ZeroSkan.Row.url := by
      have := (List.nodup_cons.mp h)
      exact ⟨this.2, this.1⟩
    by_cases hru : r.url = u
    · have hnot : rs.filter (fun x => x.url = u) = [] := by
        rw [List.filter_eq_nil_iff]
        intro x hx hc
        simp only [decide_eq_true_eq] at hc
        exact h'.2 (hru ▸ hc ▸ List.mem_map.mpr ⟨x, hx, rfl⟩)
      simp [List.filter_cons, hru, hnot]
    · have hm' : u ∈ rs.map ZeroSkan.Row.url := by
        rcases List.mem_cons.mp hm with hc | hc
        · exact absurd hc.symm hru
        · exact hc
      simp [List.filter_cons, hru, ih h'.1 hm']

theorem ZeroSkan.insertUrl_nodup {t : List ZeroSkan.Row} (h : ZeroSkan.urlsNodup t)
    (u : String) (d : ℚ) : ZeroSkan.urlsNodup (ZeroSkan.insertUrl t u d) := by
  unfold ZeroSkan.insertUrl
  by_cases hmem : (t.any fun r => r.url = u) = true
  · rw [if_pos hmem]; exact h
  · rw [if_neg hmem]
    have hnotmem : u ∉ t.map ZeroSkan.Row.url := by
      intro hc
      obtain ⟨x, hx, hxu⟩ := List.mem_map.mp hc
      exact hmem (List.any_eq_true.mpr ⟨x, hx, by simp [hxu]⟩)
    unfold ZeroSkan.urlsNodup
    rw [List.map_append, List.nodup_append]
    refine ⟨h, by simp, ?_⟩
    intro x hx hx'
    simp only [List.map_cons, List.map_nil, List.mem_singleton] at hx'
    exact hnotmem (hx' ▸ hx)

theorem ZeroSkan.mem_insertUrl (t : List ZeroSkan.Row) (u : String) (d : ℚ) :
    u ∈ (ZeroSkan.insertUrl t u d).map ZeroSkan.Row.url := by
  unfold ZeroSkan.insertUrl
  by_cases hmem : (t.any fun r => r.url = u) = true
  · rw [if_pos hmem]
    obtain ⟨x, hx, hxu⟩ := List.any_eq_true.mp hmem
    simp only [decide_eq_true_eq] at hxu
    exact List.mem_map.mpr ⟨x, hx, hxu⟩
  · rw [if_neg hmem, List.map_append]
    simp

/-! ## Claims about ZeroSkan -/

/-- C4: calling the upsert of `insert_urls_into_db` twice with the same
URL leaves exactly one record for that URL, and the table never contains
two rows with the same url (the UNIQUE constraint is preserved); the
second insert is a no-op. -/
theorem C4_upsert_idempotent (t : List ZeroSkan.Row) (u : String) (d : ℚ)
    (h : ZeroSkan.urlsNodup t) :
    ((ZeroSkan.insertUrl (ZeroSkan.insertUrl t u d) u d).filter
        (fun r => r.url = u)).length = 1 ∧
      ZeroSkan.urlsNodup (ZeroSkan.insertUrl (ZeroSkan.insertUrl t u d) u d) := by
  have h1 : ZeroSkan.urlsNodup (ZeroSkan.insertUrl t u d) :=
    ZeroSkan.insertUrl_nodup h u d
  have h2 : ZeroSkan.urlsNodup (ZeroSkan.insertUrl (ZeroSkan.insertUrl t u d) u d) :=
    ZeroSkan.insertUrl_nodup h1 u d
  refine ⟨?_, h2⟩
  exact ZeroSkan.filter_url_length_one h2 (ZeroSkan.mem_insertUrl _ u d)

/-- A one-row table: the url has been inserted but not yet scraped
(`snippet IS NULL`), and no transaction currently holds its row lock. -/
def ZeroSkan.sampleRow : ZeroSkan.Row :=
  ⟨1, "https://example.com/a", none, 1⟩

def ZeroSkan.sampleStore : ZeroSkan.Store :=
  ⟨[ZeroSkan.sampleRow], []⟩

/-- C1 (code bug): `get_unscraped_rows` is not an exclusive claim.  It
commits immediately after `fetchall()`, releasing the `FOR UPDATE` row
locks without marking the rows claimed (the schema has no claimed column
and `snippet` stays NULL), so its docstring guarantee that "multiple
processes don't work on the same URLs" fails: a first completed call
returns the row, leaves the store exactly as it was, and a second
caller's batch receives the very same unscraped record. -/
theorem C1_claim_batch_not_exclusive :
    (ZeroSkan.claimBatch ZeroSkan.sampleStore 1000).1 = [ZeroSkan.sampleRow] ∧
      (ZeroSkan.claimBatch ZeroSkan.sampleStore 1000).2 = ZeroSkan.sampleStore ∧
      (ZeroSkan.claimBatch
          (ZeroSkan.claimBatch ZeroSkan.sampleStore 1000).2 1000).1 =
        [ZeroSkan.sampleRow] := by
  decide

/-- C4 witness: instantiated at the empty table. -/
theorem C4_upsert_idempotent_witness :
    ZeroSkan.urlsNodup [] ∧
      (((ZeroSkan.insertUrl (ZeroSkan.insertUrl [] "https://a.com/x" 1)
            "https://a.com/x" 1).filter
          (fun r => r.url = "https://a.com/x")).length = 1 ∧
        ZeroSkan.urlsNodup
          (ZeroSkan.insertUrl (ZeroSkan.insertUrl [] "https://a.com/x" 1)
            "https://a.com/x" 1)) :=
  ⟨by decide, C4_upsert_idempotent [] "https://a.com/x" 1 (by decide)⟩

namespace ZeroScraper

/-!
### ZeroScraper.py — snippet extraction (`scrape_page`)

A fetched page is embedded by the pieces `scrape_page` reads from the
parsed HTML: the text of the `title` tag (if present), the `content`
attribute of the description `meta` tag (if the tag is present), and the
text of each `p` tag in document order.
-/

structure Page where
  titleTag : Option String
  metaDesc : Option String
  paragraphs : List String
  deriving DecidableEq

/-- Python whitespace used by `str.strip()`. -/
def isSpaceChar (c : Char) : Bool :=
  c = ' ' || c = '\t' || c = '\n' || c = '\r'

/-- Embedding of Python `s.strip()`. -/
def pyStrip (s : String) : String :=
  ⟨((s.toList.dropWhile isSpaceChar).reverse.dropWhile isSpaceChar).reverse⟩

/-- The truncation applied to a chosen paragraph:
`text[:300] + "..." if len(text) > 300 else text`. -/
def truncateSnippet (t : String) : String :=
  if 300 < t.length then String.mk (t.toList.take 300) ++ "..." else t

/-- The paragraph fallback loop: the first paragraph whose stripped text
is strictly longer than 50 characters, truncated; empty if none. -/
def firstParaSnippet : List String → String
  | [] => ""
  | p :: ps =>
    let t := pyStrip p
    if 50 < t.length then truncateSnippet t else firstParaSnippet ps

/-- `scrape_page`'s snippet computation.  The paragraph loop runs only in
the `else` of the meta-description test `meta_desc and
meta_desc.get('content')` (tag present with a truthy, i.e. nonempty,
content attribute); if the chosen text is empty the fixed placeholder is
used. -/
def scrapeSnippet (pg : Page) : String :=
  let s0 :=
    match pg.metaDesc with
    | some c => if c ≠ "" then pyStrip c else firstParaSnippet pg.paragraphs
    | none => firstParaSnippet pg.paragraphs
  if s0 = "" then "No snippet available" else s0

/-- `scrape_page`'s title extraction. -/
def scrapeTitle (pg : Page) : String :=
  match pg.titleTag with
  | some t => pyStrip t
  | none => "No Title"

/-- The successful-fetch result of `scrape_page(url)`: (title, snippet). -/
def scrapePage (pg : Page) : String × String :=
  (scrapeTitle pg, scrapeSnippet pg)

/-- Snippet selection as the amended claim words it: the trimmed
meta-description when one with nonempty content is present; otherwise the
first paragraph strictly longer than 50 characters, truncated to 300
characters with an ellipsis; otherwise the fixed placeholder
"No snippet available". -/
def specSnippet (pg : Page) : String :=
  let chosen :=
    if pg.metaDesc.getD "" ≠ "" then pyStrip (pg.metaDesc.getD "")
    else
      match pg.paragraphs.find? (fun p => 50 < (pyStrip p).length) with
      | some p => truncateSnippet (pyStrip p)
      | none => ""
  if chosen = "" then "No snippet available" else chosen

/-- A 50-character paragraph (stripped length exactly 50). -/
def para50 : String := ⟨List.replicate 50 'a'⟩

end ZeroScraper

theorem ZeroScraper.firstPara_eq_find (l : List String) :
    ZeroScraper.firstParaSnippet l =
      match l.find? (fun p => 50 < (ZeroScraper.pyStrip p).length) with
      | some p => ZeroScraper.truncateSnippet (ZeroScraper.pyStrip p)
      | none => "" := by
  induction l with
  | nil => rfl
  | cons p ps ih =>
    by_cases h : (50 < (ZeroScraper.pyStrip p).length)
    · rw [List.find?_cons_of_pos _ (by simpa using h)]
      simp [ZeroScraper.firstParaSnippet, h]
    · rw [List.find?_cons_of_neg _ (by simpa using h)]
      simp [ZeroScraper.firstParaSnippet, h, ih]

/-! ## Claims about ZeroScraper -/

/-- C5 counterexample: the claim fails on two of its branches.  A page
whose only paragraph strips to exactly 50 characters gets the placeholder
"No snippet available", not that paragraph (the code requires strictly
more than 50 characters); and a page with neither meta-description nor a
long paragraph gets the fixed placeholder, which is not an extract of the
page's visible text (it does not even occur in it). -/
theorem C5_counterexample :
    ZeroScraper.scrapeSnippet ⟨none, none, [ZeroScraper.para50]⟩ =
        "No snippet available" ∧
      ZeroScraper.scrapeSnippet ⟨none, none, [ZeroScraper.para50]⟩ ≠
        ZeroScraper.para50 ∧
      ZeroScraper.scrapeSnippet ⟨none, none, ["visible text"]⟩ =
        "No snippet available" ∧
      strContains "visible text" "No snippet available" = false := by
  refine ⟨by decide, by decide, by decide, by decide⟩

/-- C5 (amended): on a successful fetch, `scrape_page` returns a snippet
equal to the page's trimmed meta-description when one with nonempty
content is present; otherwise the first paragraph of strictly more than
50 characters, truncated to 300 characters with an ellipsis; and when
neither is available, the fixed placeholder string "No snippet
available". -/
theorem C5_snippet_selection (pg : ZeroScraper.Page) :
    (ZeroScraper.scrapePage pg).2 = ZeroScraper.specSnippet pg := by
  show ZeroScraper.scrapeSnippet pg = ZeroScraper.specSnippet pg
  unfold ZeroScraper.scrapeSnippet ZeroScraper.specSnippet
  cases hm : pg.metaDesc with
  | none => simp [ZeroScraper.firstPara_eq_find]
  | some c =>
    by_cases hc : c = ""
    · simp [hc, ZeroScraper.firstPara_eq_find]
    · simp [hc, Option.getD]

namespace ZeroScan

/-!
### ZeroScan.py — the breadth-first domain crawler

URLs are embedded structurally by the components `urlparse` reads
(`_extract_links` already resolves each href against the base URL with
`urljoin` and strips the fragment with `urlunparse`, so pages here carry
resolved, fragment-free absolute URLs).  `render` rebuilds the URL string
on which `_is_valid_url` runs its extension and pattern checks.
-/

structure Url where
  scheme : String
  netloc : String
  path : String
  query : String
  deriving DecidableEq

def Url.render (u : Url) : String :=
  u.scheme ++ "://" ++ u.netloc ++ u.path ++
    (if u.query = "" then "" else "?" ++ u.query)

/-- Embedding of Python `s.lower()` (ASCII). -/
def strLower (s : String) : String :=
  ⟨s.toList.map Char.toLower⟩

/-- `skip_extensions` from `_is_valid_url`. -/
def skipExtensions : List String :=
  [".pdf", ".jpg", ".jpeg", ".png", ".gif", ".css", ".js",
   ".ico", ".zip", ".tar", ".gz", ".mp4", ".mp3", ".avi"]

/-- `skip_patterns` from `_is_valid_url`. -/
def skipPatterns : List String :=
  ["/api/", "/admin/", "/login", "/logout", "/register",
   "/search?", "/tag/", "/category/", "/archive/"]

/-- `_is_valid_url(url, domain)`: http(s) scheme, `domain in
parsed.netloc`, no skipped extension at the end of the lowercased URL,
and no administrative pattern occurring in the lowercased URL. -/
def isValidUrl (u : Url) (domain : String) : Bool :=
  (u.scheme == "http" || u.scheme == "https") &&
    strContains u.netloc domain &&
    !(skipExtensions.any (fun e => strEndsWith (strLower u.render) e)) &&
    !(skipPatterns.any (fun pat => strContains (strLower u.render) pat))

/-- A fetched page: HTTP status and the resolved, fragment-stripped
targets of its `a`/`link` hrefs. -/
structure Page where
  status : Nat
  links : List Url
  deriving DecidableEq

/-- The web as the crawler's session sees it; `none` embeds a request
that raises (connection error / timeout). -/
def Web : Type := Url → Option Page

/-- Whether `session.get(u)` succeeds with status 200. -/
def fetchOk (web : Web) (u : Url) : Bool :=
  match web u with
  | some p => p.status == 200
  | none => false

def startUrl1 (domain : String) : Url := ⟨"https", domain, "", ""⟩

def startUrl2 (domain : String) : Url := ⟨"https", "www." ++ domain, "", ""⟩

/-- The seeding loop of `crawl_domain`: try `https://{domain}` then
`https://www.{domain}`, queueing the first that answers 200 at depth 0. -/
def seedQueue (web : Web) (domain : String) : List (Url × Nat) :=
  if fetchOk web (startUrl1 domain) then [(startUrl1 domain, 0)]
  else if fetchOk web (startUrl2 domain) then [(startUrl2 domain, 0)]
  else []

/-- `_extract_links`: resolve hrefs (already done in the page model),
keep those passing `_is_valid_url`, collected into a set. -/
def extractLinks (links : List Url) (domain : String) : List Url :=
  dedup (links.filter (fun l => isValidUrl l domain))

/-- The main loop of `crawl_domain`, fuelled.  Per iteration: pop; skip
if visited or too deep; mark visited; fetch (an exception or a non-200
skips the page); append to discovered; if below max depth, extend the
queue with extracted links not yet visited and not already queued. -/
def crawlLoop (web : Web) (domain : String) (maxDepth : Nat) :
    Nat → List (Url × Nat) → List Url → List Url → List Url
  | 0, _, _, disc => disc
  | _ + 1, [], _, disc => disc
  | fuel + 1, (u, d) :: rest, visited, disc =>
    if u ∈ visited ∨ maxDepth < d then
      crawlLoop web domain maxDepth fuel rest visited disc
    else
      match web u with
      | none => crawlLoop web domain maxDepth fuel rest (u :: visited) disc
      | some p =>
        if p.status ≠ 200 then
          crawlLoop web domain maxDepth fuel rest (u :: visited) disc
        else
          let newQueue :=
            if d < maxDepth then
              rest ++ ((extractLinks p.links domain).filter
                  (fun l => l ∉ u :: visited ∧ l ∉ rest.map Prod.fst)).map
                (fun l => (l, d + 1))
            else rest
          crawlLoop web domain maxDepth fuel newQueue (u :: visited) (disc ++ [u])

/-- `crawl_domain(domain)`: seed with the start URLs, then run the loop. -/
def crawlDomain (web : Web) (domain : String) (maxDepth fuel : Nat) : List Url :=
  crawlLoop web domain maxDepth fuel (seedQueue web domain) [] []

/-- The URLs `crawl_domain` can ever return: one of the two start URLs,
or a URL that passed `_is_valid_url`. -/
def GoodUrl (domain : String) (u : Url) : Prop :=
  u = startUrl1 domain ∨ u = startUrl2 domain ∨ isValidUrl u domain = true

/-- Modelled from the spec: component §4.1 `RobotsPolicy` does not exist
anywhere in the source tree; per the spec, `is_allowed` answers robots.txt
allow/deny queries, a URL being denied when its path falls under a
`Disallow` rule such as `/private/`. -/
structure RobotsPolicy where
  disallow : List String

def RobotsPolicy.is_allowed (pol : RobotsPolicy) (u : Url) : Bool :=
  !(pol.disallow.any (fun d => strStartsWith u.path d))

end ZeroScan

theorem ZeroScan.crawlLoop_good (web : ZeroScan.Web) (domain : String) (maxDepth : Nat) :
    ∀ (fuel : Nat) (queue : List (ZeroScan.Url × Nat)) (visited disc : List ZeroScan.Url),
      (∀ q ∈ queue, ZeroScan.GoodUrl domain q.1) →
      (∀ x ∈ disc, ZeroScan.GoodUrl domain x) →
      ∀ x ∈ ZeroScan.crawlLoop web domain maxDepth fuel queue visited disc,
        ZeroScan.GoodUrl domain x := by
  intro fuel
  induction fuel with
  | zero =>
    intro queue visited disc _ hd x hx
    exact hd x hx
  | succ fuel ih =>
    intro queue visited disc hq hd x hx
    cases queue with
    | nil => exact hd x hx
    | cons qd rest =>
      obtain ⟨u, d⟩ := qd
      have hrest : ∀ q ∈ rest, ZeroScan.GoodUrl domain q.1 :=
        fun q hq' => hq q (List.mem_cons_of_mem _ hq')
      by_cases hskip : u ∈ visited ∨ maxDepth < d
      · rw [ZeroScan.crawlLoop, if_pos hskip] at hx
        exact ih rest visited disc hrest hd x hx
      · rw [ZeroScan.crawlLoop, if_neg hskip] at hx
        cases hweb : web u with
        | none =>
          simp only [hweb] at hx
          exact ih rest (u :: visited) disc hrest hd x hx
        | some p =>
          simp only [hweb] at hx
          by_cases hst : p.status ≠ 200
          · rw [if_pos hst] at hx
            exact ih rest (u :: visited) disc hrest hd x hx
          · rw [if_neg hst] at hx
            have hu : ZeroScan.GoodUrl domain u := hq (u, d) (List.mem_cons_self _ _)
            have hd' : ∀ y ∈ disc ++ [u], ZeroScan.GoodUrl domain y := by
              intro y hy
              rcases List.mem_append.mp hy with hy | hy
              · exact hd y hy
              · rw [List.mem_singleton.mp hy]; exact hu
            by_cases hdep : d < maxDepth
            · rw [if_pos hdep] at hx
              refine ih _ (u :: visited) (disc ++ [u]) ?_ hd' x hx
              intro q hq'
              rcases List.mem_append.mp hq' with hq' | hq'
              · exact hrest q hq'
              · obtain ⟨l, hl, rfl⟩ := List.mem_map.mp hq'
                have hl' := List.mem_filter.mp hl
                have hl'' := mem_of_mem_dedup hl'.1
                exact Or.inr (Or.inr (List.mem_filter.mp hl'').2)
            · rw [if_neg hdep] at hx
              exact ih rest (u :: visited) (disc ++ [u]) hrest hd' x hx

/-! ## Claims about ZeroScan -/

/-- A one-page web: `https://example.zip` answers 200 with no links;
everything else is unreachable. -/
def ZeroScan.webZip : ZeroScan.Web := fun u =>
  if u = ZeroScan.startUrl1 "example.zip" then some ⟨200, []⟩ else none

/-- C9 counterexample: for the real top-level domain string
"example.zip" the start URL `https://example.zip` is returned by
`crawl_domain` without ever passing through `_is_valid_url` (only
extracted links are validated) — yet its lowercased form ends in `.zip`,
one of the binary/media extensions the heuristics must exclude.  So not
every URL returned by discovery passes the URL-shape heuristics. -/
theorem C9_counterexample :
    ZeroScan.startUrl1 "example.zip" ∈
        ZeroScan.crawlDomain ZeroScan.webZip "example.zip" 3 5 ∧
      ZeroScan.isValidUrl (ZeroScan.startUrl1 "example.zip") "example.zip" = false := by
  decide

/-- C9 (amended): every URL returned by `crawl_domain` either is one of
the two start URLs `https://{domain}` / `https://www.{domain}` (which
are returned unvalidated) or passes the `_is_valid_url` URL-shape
heuristics: http(s) scheme, no binary/media extension at the end, no
administrative path pattern. -/
theorem C9_crawl_urls_shape (web : ZeroScan.Web) (domain : String)
    (maxDepth fuel : Nat) (url : ZeroScan.Url)
    (h : url ∈ ZeroScan.crawlDomain web domain maxDepth fuel) :
    url = ZeroScan.startUrl1 domain ∨ url = ZeroScan.startUrl2 domain ∨
      ZeroScan.isValidUrl url domain = true := by
  refine ZeroScan.crawlLoop_good web domain maxDepth fuel
    (ZeroScan.seedQueue web domain) [] [] ?_ (by simp) url h
  intro q hq
  unfold ZeroScan.seedQueue at hq
  by_cases h1 : ZeroScan.fetchOk web (ZeroScan.startUrl1 domain) = true
  · rw [if_pos h1] at hq
    rw [List.mem_singleton.mp hq]
    exact Or.inl rfl
  · rw [if_neg h1] at hq
    by_cases h2 : ZeroScan.fetchOk web (ZeroScan.startUrl2 domain) = true
    · rw [if_pos h2] at hq
      rw [List.mem_singleton.mp hq]
      exact Or.inr (Or.inl rfl)
    · rw [if_neg h2] at hq
      simp at hq

/-- C9 witness: the amended theorem applied to the one-page crawl of
"example.zip". -/
theorem C9_crawl_urls_shape_witness :
    ZeroScan.startUrl1 "example.zip" ∈
        ZeroScan.crawlDomain ZeroScan.webZip "example.zip" 3 5 ∧
      (ZeroScan.startUrl1 "example.zip" = ZeroScan.startUrl1 "example.zip" ∨
        ZeroScan.startUrl1 "example.zip" = ZeroScan.startUrl2 "example.zip" ∨
        ZeroScan.isValidUrl (ZeroScan.startUrl1 "example.zip") "example.zip" = true) :=
  ⟨by decide,
    C9_crawl_urls_shape ZeroScan.webZip "example.zip" 3 5
      (ZeroScan.startUrl1 "example.zip") (by decide)⟩

/-- The crawled page under a robots-disallowed path. -/
def ZeroScan.privPage : ZeroScan.Url := ⟨"https", "site.com", "/private/page", ""⟩

/-- A web for "site.com": the home page answers 200 and links to
`/private/page`, which also answers 200. -/
def ZeroScan.webPriv : ZeroScan.Web := fun u =>
  if u = ZeroScan.startUrl1 "site.com" then some ⟨200, [ZeroScan.privPage]⟩
  else if u = ZeroScan.privPage then some ⟨200, []⟩
  else none

/-- The robots.txt of "site.com", disallowing `/private/`. -/
def ZeroScan.privPolicy : ZeroScan.RobotsPolicy := ⟨["/private/"]⟩

/-- C3 (code bug): ZeroScan never fetches or consults robots.txt — no
robots handling exists anywhere in the crawler — so `crawl_domain`
happily returns URLs a domain's robots.txt disallows.  With robots.txt
disallowing `/private/`, the crawl of "site.com" returns
`https://site.com/private/page`, which `RobotsPolicy.is_allowed`
(modelled from the spec) denies. -/
theorem C3_robots_not_consulted :
    ZeroScan.privPage ∈ ZeroScan.crawlDomain ZeroScan.webPriv "site.com" 3 10 ∧
      ZeroScan.privPolicy.is_allowed ZeroScan.privPage = false := by
  decide

namespace ZeroIndex

/-!
### ZeroIndex.py — the FAISS vector index manager

The FAISS flat inner-product index is embedded as the list of its stored
vectors in insertion order (the position in the list is the FAISS id, and
`ntotal` is the list length).  Embeddings are abstract: operations are
parametric in a vector type `E`, an embedding function standing for
`model.encode` on `"{title} [SEP] {snippet}"` followed by L2
normalization, and a query-score oracle standing for the inner product of
the normalized query embedding with a stored vector.  Scores are
rationals (idealized floats).
-/

structure Metadata where
  url : String
  title : String
  snippet : String
  deleted : Bool
  deriving DecidableEq

/-- `self.id_to_metadata.get(idx, {})` yields an empty dict: every field
read from it with `.get(key, '')` is the empty string. -/
def emptyMetadata : Metadata := ⟨"", "", "", false⟩

structure IndexState (E : Type) where
  index : List E
  url_to_id : List (String × Nat)
  id_to_metadata : List (Nat × Metadata)
  next_id : Nat
  deriving DecidableEq

/-- The state set up in `__init__` before `_load_index` runs. -/
def initState {E : Type} : IndexState E := ⟨[], [], [], 0⟩

/-- One iteration of the `process_queue` loop for queue entry
`(url, title, snippet)`: skip if the url is already indexed, skip
(logging) if title and snippet are both empty, else embed, append the
vector, and record the url/id/metadata under the fresh id `next_id`. -/
def addEntry {E : Type} (embed : String → String → E) (s : IndexState E)
    (url title snippet : String) : IndexState E :=
  if (alookup s.url_to_id url).isSome then s
  else if title = "" ∧ snippet = "" then s
  else
    { index := s.index ++ [embed title snippet],
      url_to_id := s.url_to_id ++ [(url, s.next_id)],
      id_to_metadata := s.id_to_metadata ++ [(s.next_id, ⟨url, title, snippet, false⟩)],
      next_id := s.next_id + 1 }

/-- `process_queue`: fold the queue.json entries (url, title, snippet) —
`data.get('title', '')` / `data.get('snippet', '')` make missing fields
empty strings — through `addEntry`. -/
def processQueue {E : Type} (embed : String → String → E) (s : IndexState E)
    (queue : List (String × String × String)) : IndexState E :=
  queue.foldl (fun acc e => addEntry embed acc e.1 e.2.1 e.2.2) s

/-- `self.id_to_metadata[faiss_id]['deleted'] = True` guarded by
`if faiss_id in self.id_to_metadata`. -/
def markDeleted (l : List (Nat × Metadata)) (fid : Nat) : List (Nat × Metadata) :=
  l.map (fun q => if q.1 = fid then (q.1, { q.2 with deleted := true }) else q)

/-- `remove_url(url)`: returns False when the url is not mapped;
otherwise tombstones the metadata entry, deletes the url from
`url_to_id`, and returns True.  The vector itself stays in the index. -/
def removeUrl {E : Type} (s : IndexState E) (url : String) : IndexState E × Bool :=
  match alookup s.url_to_id url with
  | none => (s, false)
  | some fid =>
    ({ s with
        id_to_metadata := markDeleted s.id_to_metadata fid,
        url_to_id := s.url_to_id.filter (fun p => p.1 ≠ url) }, true)

/-- Descending-score order on (faiss id, score) pairs: the order in which
`index.search` hands back its hits. -/
def scoreGe (a b : Nat × ℚ) : Prop := b.2 ≤ a.2

instance : DecidableRel scoreGe := fun a b => inferInstanceAs (Decidable (b.2 ≤ a.2))

instance : IsTotal (Nat × ℚ) scoreGe := ⟨fun a b => le_total b.2 a.2⟩

instance : IsTrans (Nat × ℚ) scoreGe := ⟨fun _ _ _ h h' => le_trans h' h⟩

structure SearchResult where
  rank : Nat
  url : String
  title : String
  snippet : String
  similarity_score : ℚ
  deriving DecidableEq

/-- `search(query, top_k)`: empty when the index is empty; otherwise
clamp `top_k` to `ntotal`, take the `top_k` highest-scoring (id, score)
pairs in descending order (the flat index returns no -1 padding when
`top_k ≤ ntotal`, so the `idx == -1` skip never fires), and build ranked
results, defaulting missing metadata to empty fields. -/
def search {E : Type} (qscore : String → E → ℚ) (s : IndexState E)
    (query : String) (topK : Nat) : List SearchResult :=
  if s.index.length = 0 then []
  else
    ((List.insertionSort scoreGe
            (s.index.enum.map (fun p => (p.1, qscore query p.2)))).take
        (min topK s.index.length)).enum.map
      (fun q =>
        ⟨q.1 + 1,
          ((alookup s.id_to_metadata q.2.1).getD emptyMetadata).url,
          ((alookup s.id_to_metadata q.2.1).getD emptyMetadata).title,
          ((alookup s.id_to_metadata q.2.1).getD emptyMetadata).snippet,
          q.2.2⟩)

/-- `rebuild_index()`: reset the FAISS index, both maps and `next_id`,
then run `process_queue` on the current queue.json. -/
def rebuildIndex {E : Type} (embed : String → String → E) (s : IndexState E)
    (queue : List (String × String × String)) : IndexState E :=
  processQueue embed
    { s with index := [], url_to_id := [], id_to_metadata := [], next_id := 0 }
    queue

/-- The pickled metadata file's contents. -/
structure MetaFile where
  url_to_id : List (String × Nat)
  id_to_metadata : List (Nat × Metadata)
  next_id : Nat
  deriving DecidableEq

/-- `_load_index()`: nothing is loaded unless both files exist.  The
whole load sits in one try/except: `self.index = faiss.read_index(...)`
runs first, and only then is the metadata file opened and unpickled — so
when the metadata read raises, the except branch logs "Starting with
fresh index" but the already-assigned loaded index is kept while
`url_to_id`/`id_to_metadata`/`next_id` remain in their fresh empty state.
`Except.error` embeds a raising read. -/
def loadIndex {E : Type} (bothExist : Bool) (readIdx : Except Unit (List E))
    (readMeta : Except Unit MetaFile) : IndexState E :=
  if bothExist then
    match readIdx with
    | .error _ => initState
    | .ok v =>
      match readMeta with
      | .error _ => { (initState : IndexState E) with index := v }
      | .ok m => ⟨v, m.url_to_id, m.id_to_metadata, m.next_id⟩
  else initState

/-- The consistency invariant of the index state: the FAISS index holds
exactly `next_id` vectors, `url_to_id` maps distinct urls to distinct
ids, every mapped id is below `next_id`, and every mapped id has a
metadata entry. -/
def Inv {E : Type} (s : IndexState E) : Prop :=
  s.index.length = s.next_id ∧
    (s.url_to_id.map Prod.fst).Nodup ∧
    (s.url_to_id.map Prod.snd).Nodup ∧
    ∀ p ∈ s.url_to_id, p.2 < s.next_id ∧
      (alookup s.id_to_metadata p.2).isSome = true

instance {E : Type} (s : IndexState E) : Decidable (Inv s) := by
  unfold Inv; infer_instance

/-- The constant embedder used for concrete evaluations. -/
def embedQ : String → String → ℚ := fun _ _ => 1

/-- The score oracle used for concrete evaluations: the stored vector is
its own score. -/
def qscoreQ : String → ℚ → ℚ := fun _ e => e

end ZeroIndex

theorem ZeroIndex.alookup_markDeleted_isSome (md : List (Nat × ZeroIndex.Metadata))
    (fid k : Nat) :
    (alookup (ZeroIndex.markDeleted md fid) k).isSome =
      (alookup md k).isSome := by
  induction md with
  | nil => rfl
  | cons q qs ih =>
    simp only [ZeroIndex.markDeleted, List.map_cons]
    by_cases hq : q.1 = fid
    · rw [if_pos hq]
      by_cases hk : q.1 = k
      · simp [alookup, hk]
      · simp only [alookup, if_neg hk]
        exact ih
    · rw [if_neg hq]
      by_cases hk : q.1 = k
      · simp [alookup, hk]
      · simp only [alookup, if_neg hk]
        exact ih

theorem ZeroIndex.Inv_addEntry {E : Type} (embed : String → String → E)
    {s : ZeroIndex.IndexState E} (h : ZeroIndex.Inv s) (url title snippet : String) :
    ZeroIndex.Inv (ZeroIndex.addEntry embed s url title snippet) := by
  obtain ⟨hlen, hkeys, hvals, hmaps⟩ := h
  unfold ZeroIndex.addEntry
  by_cases hmem : (alookup s.url_to_id url).isSome = true
  · rw [if_pos hmem]; exact ⟨hlen, hkeys, hvals, hmaps⟩
  · rw [if_neg hmem]
    by_cases hblank : title = "" ∧ snippet = ""
    · rw [if_pos hblank]; exact ⟨hlen, hkeys, hvals, hmaps⟩
    · rw [if_neg hblank]
      have hnotkey : url ∉ s.url_to_id.map Prod.fst := by
        rw [← alookup_isSome_iff]
        exact hmem
      refine ⟨?_, ?_, ?_, ?_⟩
      · simp [hlen]
      · rw [List.map_append, List.nodup_append]
        refine ⟨hkeys, by simp, ?_⟩
        intro x hx hx'
        simp only [List.map_cons, List.map_nil, List.mem_singleton] at hx'
        exact hnotkey (hx' ▸ hx)
      · rw [List.map_append, List.nodup_append]
        refine ⟨hvals, by simp, ?_⟩
        intro x hx hx'
        simp only [List.map_cons, List.map_nil, List.mem_singleton] at hx'
        rcases List.mem_map.mp hx with ⟨p, hp, hps⟩
        have hlt := (hmaps p hp).1
        have hx'' : x = s.next_id := hx'
        omega
      · intro p hp
        rcases List.mem_append.mp hp with hp | hp
        · have h1 := (hmaps p hp).1
          have h2 := (hmaps p hp).2
          refine ⟨Nat.lt_succ_of_lt h1, ?_⟩
          rw [alookup_append]
          rcases ho : alookup s.id_to_metadata p.2 with _ | v
          · rw [ho] at h2; simp at h2
          · rfl
        · have hpe : p = (url, s.next_id) := List.mem_singleton.mp hp
          subst hpe
          refine ⟨Nat.lt_succ_self _, ?_⟩
          rw [alookup_append]
          rcases ho : alookup s.id_to_metadata s.next_id with _ | v
          · simp [alookup]
          · rfl

theorem ZeroIndex.Inv_processQueue {E : Type} (embed : String → String → E) :
    ∀ (queue : List (String × String × String)) (s : ZeroIndex.IndexState E),
      ZeroIndex.Inv s → ZeroIndex.Inv (ZeroIndex.processQueue embed s queue) := by
  intro queue
  induction queue with
  | nil => intro s h; exact h
  | cons e es ih =>
    intro s h
    exact ih (ZeroIndex.addEntry embed s e.1 e.2.1 e.2.2)
      (ZeroIndex.Inv_addEntry embed h e.1 e.2.1 e.2.2)

theorem ZeroIndex.Inv_removeUrl {E : Type} {s : ZeroIndex.IndexState E}
    (h : ZeroIndex.Inv s) (url : String) :
    ZeroIndex.Inv (ZeroIndex.removeUrl s url).1 := by
  obtain ⟨hlen, hkeys, hvals, hmaps⟩ := h
  unfold ZeroIndex.removeUrl
  cases ho : alookup s.url_to_id url with
  | none =>
    simp only [ho]
    exact ⟨hlen, hkeys, hvals, hmaps⟩
  | some fid =>
    simp only [ho]
    refine ⟨hlen, ?_, ?_, ?_⟩
    · exact List.Nodup.sublist ((List.filter_sublist _).map _) hkeys
    · exact List.Nodup.sublist ((List.filter_sublist _).map _) hvals
    · intro p hp
      have hp' : p ∈ s.url_to_id := List.mem_of_mem_filter hp
      refine ⟨(hmaps p hp').1, ?_⟩
      rw [ZeroIndex.alookup_markDeleted_isSome]
      exact (hmaps p hp').2

theorem ZeroIndex.Inv_initState {E : Type} : ZeroIndex.Inv (ZeroIndex.initState : ZeroIndex.IndexState E) :=
  ⟨rfl, List.nodup_nil, List.nodup_nil, fun p hp => absurd hp (List.not_mem_nil p)⟩

/-! ## Claims about ZeroIndex -/

/-- C10: each of `process_queue`, `remove_url` and `rebuild_index`
preserves the index consistency invariant: the FAISS index stores exactly
`next_id` vectors, `url_to_id` maps distinct URLs to distinct ids all
strictly below `next_id`, and every mapped id has a metadata entry
(`rebuild_index` even establishes it unconditionally, since it restarts
from the reset state). -/
theorem C10_operations_preserve_invariant {E : Type} (embed : String → String → E)
    (s : ZeroIndex.IndexState E) (queue : List (String × String × String))
    (url : String) (h : ZeroIndex.Inv s) :
    ZeroIndex.Inv (ZeroIndex.processQueue embed s queue) ∧
      ZeroIndex.Inv (ZeroIndex.removeUrl s url).1 ∧
      ZeroIndex.Inv (ZeroIndex.rebuildIndex embed s queue) := by
  refine ⟨ZeroIndex.Inv_processQueue embed queue s h, ZeroIndex.Inv_removeUrl h url, ?_⟩
  unfold ZeroIndex.rebuildIndex
  exact ZeroIndex.Inv_processQueue embed queue _ ZeroIndex.Inv_initState

/-- C10 witness: the three operations applied to a concretely-built
one-entry index state. -/
theorem C10_operations_preserve_invariant_witness :
    ZeroIndex.Inv (ZeroIndex.processQueue ZeroIndex.embedQ ZeroIndex.initState
        [("https://a", "T", "S")]) ∧
      (ZeroIndex.Inv (ZeroIndex.processQueue ZeroIndex.embedQ
          (ZeroIndex.processQueue ZeroIndex.embedQ ZeroIndex.initState
            [("https://a", "T", "S")])
          [("https://b", "U", "V")]) ∧
        ZeroIndex.Inv (ZeroIndex.removeUrl
          (ZeroIndex.processQueue ZeroIndex.embedQ ZeroIndex.initState
            [("https://a", "T", "S")]) "https://a").1 ∧
        ZeroIndex.Inv (ZeroIndex.rebuildIndex ZeroIndex.embedQ
          (ZeroIndex.processQueue ZeroIndex.embedQ ZeroIndex.initState
            [("https://a", "T", "S")])
          [("https://b", "U", "V")])) :=
  ⟨by decide,
    C10_operations_preserve_invariant ZeroIndex.embedQ
      (ZeroIndex.processQueue ZeroIndex.embedQ ZeroIndex.initState
        [("https://a", "T", "S")])
      [("https://b", "U", "V")] "https://a" (by decide)⟩

theorem snd_mem_of_mem_enumSeq {α : Type} :
    ∀ (l : List α) (n : Nat) (q : Nat × α), q ∈ List.enumFrom n l → q.2 ∈ l := by
  intro l
  induction l with
  | nil => intro n q hq; simp [List.enumFrom] at hq
  | cons a as ih =>
    intro n q hq
    rw [List.enumFrom] at hq
    rcases List.mem_cons.mp hq with hq | hq
    · rw [hq]; exact List.mem_cons_self _ _
    · exact List.mem_cons_of_mem _ (ih (n + 1) q hq)

theorem pairwise_enumSeq {α : Type} {R : α → α → Prop} :
    ∀ (l : List α) (n : Nat), l.Pairwise R →
      (List.enumFrom n l).Pairwise (fun p q => R p.2 q.2) := by
  intro l
  induction l with
  | nil => intro n _; simp [List.enumFrom]
  | cons a as ih =>
    intro n h
    rw [List.enumFrom]
    rcases List.pairwise_cons.mp h with ⟨ha, h'⟩
    refine List.pairwise_cons.mpr ⟨?_, ih (n + 1) h'⟩
    intro q hq
    exact ha q.2 (snd_mem_of_mem_enumSeq as (n + 1) q hq)

/-- C6 counterexample: an index slot with no mapped metadata is NOT
filtered out of search results.  In the state `_load_index` produces when
the index file loads but the metadata unpickling raises (one stored
vector, empty metadata maps), `search` returns one result whose
url/title/snippet default to empty strings — the claim requires such
slots to be dropped, which would give the empty result list. -/
theorem C6_counterexample :
    ZeroIndex.search ZeroIndex.qscoreQ
        (ZeroIndex.loadIndex true (Except.ok [(2 : ℚ)]) (Except.error ()))
        "q" 5 = [⟨1, "", "", "", 2⟩] ∧
      ZeroIndex.search ZeroIndex.qscoreQ
        (ZeroIndex.loadIndex true (Except.ok [(2 : ℚ)]) (Except.error ()))
        "q" 5 ≠ [] := by
  refine ⟨by decide, by decide⟩

/-- C6 (amended): `search(query, top_k)` returns exactly
`min(top_k, ntotal)` results — `top_k` is clamped to the total number of
stored vectors (tombstoned ones included), and nothing is filtered:
index slots with no mapped metadata are included with empty
url/title/snippet rather than dropped — ordered by descending similarity
score. -/
theorem C6_search_clamped_ordered {E : Type} (qscore : String → E → ℚ)
    (s : ZeroIndex.IndexState E) (query : String) (topK : Nat) :
    (ZeroIndex.search qscore s query topK).length = min topK s.index.length ∧
      (ZeroIndex.search qscore s query topK).Pairwise
        (fun a b => b.similarity_score ≤ a.similarity_score) := by
  unfold ZeroIndex.search
  by_cases h0 : s.index.length = 0
  · rw [if_pos h0]
    simp [h0]
  · rw [if_neg h0]
    constructor
    · simp only [List.length_map, List.enum_length, List.length_take,
        List.length_insertionSort]
      omega
    · rw [List.pairwise_map]
      have hsorted :
          ((List.insertionSort ZeroIndex.scoreGe
              (s.index.enum.map (fun p => (p.1, qscore query p.2)))).take
            (min topK s.index.length)).Pairwise ZeroIndex.scoreGe :=
        List.Pairwise.sublist (List.take_sublist _ _)
          (List.sorted_insertionSort ZeroIndex.scoreGe _)
      exact pairwise_enumSeq _ 0 hsorted

/-- The one-entry index state used for concrete ZeroIndex evaluations:
queue.json holds url "https://a" with title "T" and snippet "S". -/
def ZeroIndex.oneEntryState : ZeroIndex.IndexState ℚ :=
  ZeroIndex.processQueue ZeroIndex.embedQ ZeroIndex.initState [("https://a", "T", "S")]

/-- C2 (code bug): tombstoned entries are not filtered from search
results.  `remove_url` marks the metadata entry deleted and drops the
url→id mapping, but `search` builds its results straight from
`id_to_metadata[idx]` without ever consulting the `deleted` flag (only
`get_stats` and `export_metadata` do), so a removed url is still returned
by every subsequent search that reaches its vector. -/
theorem C2_removed_url_still_returned :
    (ZeroIndex.removeUrl ZeroIndex.oneEntryState "https://a").2 = true ∧
      ((ZeroIndex.search ZeroIndex.qscoreQ
          (ZeroIndex.removeUrl ZeroIndex.oneEntryState "https://a").1
          "query" 10).map (fun r => r.url)) = ["https://a"] := by
  refine ⟨by decide, by decide⟩

/-- C7 (code bug): `_load_index` does not fall back to an empty index
when the pair fails to load as a pair.  `self.index = faiss.read_index`
runs before the metadata unpickling; when the latter raises, the except
branch logs "Starting with fresh index" but keeps the already-loaded
vectors with empty url/metadata maps and `next_id = 0` — a served state
that is not the empty index and violates the index/metadata consistency
invariant. -/
theorem C7_load_serves_mismatched_index :
    ZeroIndex.loadIndex true (Except.ok [(1 : ℚ)]) (Except.error ()) =
        ⟨[(1 : ℚ)], [], [], 0⟩ ∧
      ZeroIndex.loadIndex true (Except.ok [(1 : ℚ)]) (Except.error ()) ≠
        (ZeroIndex.initState : ZeroIndex.IndexState ℚ) ∧
      ¬ ZeroIndex.Inv (ZeroIndex.loadIndex true (Except.ok [(1 : ℚ)])
          (Except.error ())) := by
  refine ⟨by decide, by decide, by decide⟩

/-- C8 counterexample: `rebuild_index` does NOT re-embed "everything with
no snippet/title blank-skip" — it runs `process_queue`, which skips any
queue entry whose title and snippet are both empty.  Rebuilding a
non-empty index from a queue holding only the blank entry "https://u"
yields the empty index: the entry is absent from `url_to_id` and no
vector is added. -/
theorem C8_counterexample :
    ZeroIndex.rebuildIndex ZeroIndex.embedQ ZeroIndex.oneEntryState
        [("https://u", "", "")] =
        (ZeroIndex.initState : ZeroIndex.IndexState ℚ) ∧
      alookup (ZeroIndex.rebuildIndex ZeroIndex.embedQ ZeroIndex.oneEntryState
          [("https://u", "", "")]).url_to_id "https://u" = none := by
  refine ⟨by decide, by decide⟩

/-- C8 (amended): `rebuild_index` discards the ANN structure and the
entire IndexEntry state (url_to_id, id_to_metadata, next_id reset) and
reprocesses the queue through `process_queue` — skipping entries whose
title and snippet are both blank, exactly as a fresh build does — so a
rebuild is state-identical to a fresh index built directly from the same
queue snapshot, and every subsequent search returns identical results. -/
theorem C8_rebuild_equals_fresh_build {E : Type} (embed : String → String → E)
    (qscore : String → E → ℚ) (s : ZeroIndex.IndexState E)
    (queue : List (String × String × String)) (query : String) (k : Nat) :
    ZeroIndex.rebuildIndex embed s queue =
        ZeroIndex.processQueue embed ZeroIndex.initState queue ∧
      ZeroIndex.search qscore (ZeroIndex.rebuildIndex embed s queue) query k =
        ZeroIndex.search qscore
          (ZeroIndex.processQueue embed ZeroIndex.initState queue) query k := by
  have h : ZeroIndex.rebuildIndex embed s queue =
      ZeroIndex.processQueue embed ZeroIndex.initState queue := rfl
  exact ⟨h, by rw [h]⟩
